import Mathlib

/-!
Verification development for the FinanceAI_DocsAnalyze social / realtime-DM
backend.  The definitions below are a shallow embedding of
`app/services/social.py`, `app/services/realtime.py` and the DM entry point
of `app/routers/chat.py`.  The single-table key/value store is modelled as an
association list from (partition key, sort key) pairs to attribute maps;
timestamps and generated ids, which the Python code obtains from the clock
and `uuid`, are passed as explicit arguments.
-/

set_option maxHeartbeats 1000000

namespace FinDocs

/-- A DynamoDB attribute value: string or number (only the kinds the
repository stores). -/
inductive AttrVal where
  | s : String → AttrVal
  | n : Int → AttrVal
deriving DecidableEq, Repr

/-- An item is a map of attribute names to values, as an association list. -/
abbrev Item := List (String × AttrVal)

/-- A full table key: (partition key, sort key). -/
abbrev DKey := String × String

/-- The single table, as an association list keyed by (PK, SK).  Keys are
unique along any list produced by the store operations below. -/
abbrev Table := List (DKey × Item)

/-- Attribute lookup inside an item (Python dict read / boto `Attr`). -/
def getAttr (it : Item) (a : String) : Option AttrVal :=
  match it with
  | [] => none
  | p :: rest => if p.1 = a then some p.2 else getAttr rest a

/-- Replace-or-append write of one attribute inside an item
(DynamoDB `UpdateExpression` touching one attribute). -/
def setAttr (it : Item) (a : String) (v : AttrVal) : Item :=
  match it with
  | [] => [(a, v)]
  | p :: rest => if p.1 = a then (a, v) :: rest else p :: setAttr rest a v

/-- Models `get_item`: fetch the item stored under a key, if any. -/
def getItem (t : Table) (k : DKey) : Option Item :=
  match t with
  | [] => none
  | e :: rest => if e.1 = k then some e.2 else getItem rest k

/-- Models `put_item`: unconditional overwrite; replaces the entry in place when the
key is present, appends otherwise. -/
def putItem (t : Table) (k : DKey) (v : Item) : Table :=
  match t with
  | [] => [(k, v)]
  | e :: rest => if e.1 = k then (k, v) :: rest else e :: putItem rest k v

/-- Models `delete_item`: removes the entry under the key, if present (keys are
unique in the store, so this drops every entry carrying the key). -/
def deleteItem (t : Table) (k : DKey) : Table :=
  match t with
  | [] => []
  | e :: rest => if e.1 = k then deleteItem rest k else e :: deleteItem rest k

/-- Models `put_item` with `ConditionExpression="attribute_not_exists(PK)"`:
creates the item only when the key is absent; the boolean reports whether the
conditional write succeeded (`False` models the
`ConditionalCheckFailedException` branch). -/
def putIfAbsent (t : Table) (k : DKey) (v : Item) : Table × Bool :=
  match getItem t k with
  | some _ => (t, false)
  | none => (putItem t k v, true)

/-- Models `update_item` with `ADD <attr> :d`: atomic counter add.  When the item is
absent DynamoDB creates it holding just the counter; when the attribute is
absent it starts from zero. -/
def addToCounter (t : Table) (k : DKey) (a : String) (d : Int) : Table :=
  match getItem t k with
  | none => putItem t k [(a, AttrVal.n d)]
  | some it =>
    let old : Int := match getAttr it a with
      | some (AttrVal.n v) => v
      | _ => 0
    putItem t k (setAttr it a (AttrVal.n (old + d)))

/-! Python / DynamoDB string helpers. -/

/-- Python slice `s[:n]`. -/
def pySlice (s : String) (n : Nat) : String := String.mk (s.data.take n)

/-- Python `str.lower()` (ASCII case folding, which covers the repository's
profile data). -/
def pyLower (s : String) : String := String.mk (s.data.map Char.toLower)

/-- Split at the first occurrence of `sep`; `none` when `sep` is absent.
This models the success/failure of Python `s.split(sep, 1)` followed by a
two-element unpacking. -/
def splitFirst (sep : Char) : List Char → Option (List Char × List Char)
  | [] => none
  | c :: cs =>
    if c = sep then some ([], cs)
    else (splitFirst sep cs).map (fun p => (c :: p.1, p.2))

/-- Lexicographic strict order on char lists by Unicode code point — the
comparison Python uses on `str`, and (restricted to the ASCII key space of
this repository) also the sort-key order of the store. -/
def charListLt (x y : List Char) : Bool :=
  match x, y with
  | [], [] => false
  | [], _ :: _ => true
  | _ :: _, [] => false
  | c :: cs, d :: ds =>
    if c.toNat < d.toNat then true
    else if d.toNat < c.toNat then false
    else charListLt cs ds

/-- Python `a < b` on strings. -/
def pyStrLt (a b : String) : Bool := charListLt a.data b.data

/-- Python `a <= b` on strings. -/
def pyStrLe (a b : String) : Bool := !(pyStrLt b a)

/-- Does `needle` occur at the head of `hay`? -/
def startsWithL (needle hay : List Char) : Bool :=
  match needle, hay with
  | [], _ => true
  | _ :: _, [] => false
  | c :: cs, d :: ds => c == d && startsWithL cs ds

/-- Contiguous-substring test over char lists. -/
def containsSubL (hay needle : List Char) : Bool :=
  match hay with
  | [] => startsWithL needle []
  | _ :: rest => startsWithL needle hay || containsSubL rest needle

/-- DynamoDB `Attr(...).contains` for strings: case-sensitive substring. -/
def ddbContains (hay needle : String) : Bool := containsSubL hay.data needle.data

/-- Bool prefix test (`begins_with`). -/
def strStartsWith (s pre : String) : Bool := startsWithL pre.data s.data

/-! Query machinery: DynamoDB `query` over the association-list table. -/

/-- Insertion step of a stable insertion sort. -/
def insertBy {α : Type} (le : α → α → Bool) (x : α) : List α → List α
  | [] => [x]
  | y :: ys => if le x y then x :: y :: ys else y :: insertBy le x ys

/-- Stable insertion sort by a boolean comparison. -/
def sortBy {α : Type} (le : α → α → Bool) : List α → List α
  | [] => []
  | x :: xs => insertBy le x (sortBy le xs)

/-- Comparison placing larger sort keys first (ScanIndexForward=False). -/
def skDescLE (e1 e2 : DKey × Item) : Bool := pyStrLe e2.1.2 e1.1.2

/-- All matches of `query(PK=pk, SK begins_with skPrefix)` in descending
sort-key order, optionally resuming strictly after an exclusive start sort
key. -/
def queryDescAll (t : Table) (pk skPrefix : String) (startAfter : Option String) :
    List (DKey × Item) :=
  let ms := t.filter (fun e => decide (e.1.1 = pk) && strStartsWith e.1.2 skPrefix)
  let sorted := sortBy skDescLE ms
  match startAfter with
  | none => sorted
  | some sk => sorted.filter (fun e => pyStrLt e.1.2 sk)

/-- Models `query` with `Limit`. -/
def queryDesc (t : Table) (pk skPrefix : String) (limit : Nat)
    (startAfter : Option String) : List (DKey × Item) :=
  (queryDescAll t pk skPrefix startAfter).take limit

/-! `app/services/social.py` -/

/-- Python `sorted([a, b])`: stable two-element sort (the second element
moves in front only when strictly smaller). -/
def pySortedPair (a b : String) : List String :=
  if pyStrLt b a then [b, a] else [a, b]

/-- Models `_convo_id` (social.py): `"|".join(sorted([a, b]))`. -/
def _convo_id (a b : String) : String := String.intercalate "|" (pySortedPair a b)

/-- The stored DM message record (`msg` dict in `send_dm`): note the
truncated text. -/
def dmMsgRecord (sender_sub receiver_sub text ts msg_id : String) : Item :=
  [("PK", AttrVal.s ("DM#" ++ _convo_id sender_sub receiver_sub)),
   ("SK", AttrVal.s ("MSG#" ++ ts ++ "#" ++ msg_id)),
   ("from", AttrVal.s sender_sub), ("to", AttrVal.s receiver_sub),
   ("text", AttrVal.s (pySlice text 2000)), ("created_at", AttrVal.s ts),
   ("type", AttrVal.s "dm"), ("msg_id", AttrVal.s msg_id)]

/-- Models `send_dm` (social.py).  The wall clock and `uuid4` are passed in as `ts`
and `msg_id`.  Writes the message record, then the sender pointer, then the
receiver pointer; returns the new table and the `msg` dict of the response
(note: the response carries the raw `text`, the stored record the sliced
one). -/
def send_dm (t : Table) (sender_sub receiver_sub text ts msg_id : String) :
    Table × Item :=
  let cid := _convo_id sender_sub receiver_sub
  let msg : Item := dmMsgRecord sender_sub receiver_sub text ts msg_id
  let t1 := putItem t ("DM#" ++ cid, "MSG#" ++ ts ++ "#" ++ msg_id) msg
  let t2 := putItem t1 ("USER#" ++ sender_sub, "DM#" ++ cid)
    [("PK", AttrVal.s ("USER#" ++ sender_sub)), ("SK", AttrVal.s ("DM#" ++ cid)),
     ("type", AttrVal.s "dm_ptr"), ("updated_at", AttrVal.s ts)]
  let t3 := putItem t2 ("USER#" ++ receiver_sub, "DM#" ++ cid)
    [("PK", AttrVal.s ("USER#" ++ receiver_sub)), ("SK", AttrVal.s ("DM#" ++ cid)),
     ("type", AttrVal.s "dm_ptr"), ("updated_at", AttrVal.s ts)]
  (t3, [("from", AttrVal.s sender_sub), ("to", AttrVal.s receiver_sub),
        ("text", AttrVal.s text), ("created_at", AttrVal.s ts),
        ("msg_id", AttrVal.s msg_id)])

/-- Models `list_dm` (social.py): newest-first page of the conversation. -/
def list_dm (t : Table) (sub_a sub_b : String) (limit : Nat) : List Item :=
  (queryDesc t ("DM#" ++ _convo_id sub_a sub_b) "MSG#" limit none).map (fun e => e.2)

/-- Cursor parsing in `list_feed`: `pk, sk = cursor.split("|", 1)` inside
`try/except` — `none` exactly when the unpacking would raise. -/
def parseCursor (c : String) : Option DKey :=
  (splitFirst '|' c.data).map (fun p => (String.mk p.1, String.mk p.2))

/-- Models `list_feed` (social.py): newest-first feed page plus an opaque
`next` cursor assembled from the last evaluated key. -/
def list_feed (t : Table) (limit : Nat) (cursor : Option String) :
    List Item × Option String :=
  let start := (cursor.bind parseCursor).map (fun p => p.2)
  let all := queryDescAll t "APP#FEED" "POST#" start
  let page := all.take limit
  let next := if limit < all.length then
      page.getLast?.map (fun e => e.1.1 ++ "|" ++ e.1.2)
    else none
  (page.map (fun e => e.2), next)

/-- The key of the id→feed mapping item of a post (`PK=POST#<id>`,
`SK=MAP#FEED`). -/
def mapKey (post_id : String) : DKey := ("POST#" ++ post_id, "MAP#FEED")

/-- Models `like_key` as computed inside `toggle_like`. -/
def like_key (post_id user_sub : String) : DKey :=
  ("POST#" ++ post_id, "LIKE#" ++ user_sub)

/-- The like existence record `{**like_key, "ts": _now_iso()}`. -/
def likeRecord (post_id user_sub ts : String) : Item :=
  [("PK", AttrVal.s ("POST#" ++ post_id)), ("SK", AttrVal.s ("LIKE#" ++ user_sub)),
   ("ts", AttrVal.s ts)]

/-- Models `_get_feed_key_from_post` (social.py).  `Except.error` models the
`KeyError` a mapping item without `feed_pk`/`feed_sk` fields would raise. -/
def _get_feed_key_from_post (t : Table) (post_id : String) :
    Except String (Option DKey) :=
  match getItem t (mapKey post_id) with
  | none => Except.ok none
  | some m =>
    match getAttr m "feed_pk", getAttr m "feed_sk" with
    | some (AttrVal.s fpk), some (AttrVal.s fsk) => Except.ok (some (fpk, fsk))
    | _, _ => Except.error "KeyError"

/-- Models `toggle_like` (social.py): conditional create of the like record, delete
on conflict, then an atomic counter update on the feed item when the mapping
resolves.  The boolean is the `liked` field of the response. -/
def toggle_like (t : Table) (post_id user_sub ts : String) :
    Except String (Table × Bool) :=
  let step := putIfAbsent t (like_key post_id user_sub)
    (likeRecord post_id user_sub ts)
  let liked := step.2
  let t1 := if liked then step.1 else deleteItem t (like_key post_id user_sub)
  match _get_feed_key_from_post t1 post_id with
  | Except.error e => Except.error e
  | Except.ok none => Except.ok (t1, liked)
  | Except.ok (some fk) =>
    Except.ok (addToCounter t1 fk "like_count" (if liked then 1 else -1), liked)

/-- Reads a feed item's numeric `like_count`, when the item and attribute
exist. -/
def likeCount (t : Table) (k : DKey) : Option Int :=
  match getItem t k with
  | none => none
  | some it =>
    match getAttr it "like_count" with
    | some (AttrVal.n v) => some v
    | _ => none

/-- Models `connect_users` (social.py): writes the two mirrored edge records; the
clock read is the `now` argument. -/
def connect_users (t : Table) (a_sub b_sub now : String) : Table :=
  let t1 := putItem t ("USER#" ++ a_sub, "CONN#" ++ b_sub)
    [("PK", AttrVal.s ("USER#" ++ a_sub)), ("SK", AttrVal.s ("CONN#" ++ b_sub)),
     ("created_at", AttrVal.s now), ("type", AttrVal.s "conn")]
  putItem t1 ("USER#" ++ b_sub, "CONN#" ++ a_sub)
    [("PK", AttrVal.s ("USER#" ++ b_sub)), ("SK", AttrVal.s ("CONN#" ++ a_sub)),
     ("created_at", AttrVal.s now), ("type", AttrVal.s "conn")]

/-- Models `it.get(attr, "")` for string attributes. -/
def strAttrD (it : Item) (a : String) : String :=
  match getAttr it a with
  | some (AttrVal.s v) => v
  | _ => ""

/-- Models `Attr(a).contains(needle)`: false when the attribute is absent or not a
string. -/
def attrContains (it : Item) (a needle : String) : Bool :=
  match getAttr it a with
  | some (AttrVal.s v) => ddbContains v needle
  | _ => false

/-- Models `it["PK"].split("#", 1)[1]`; profile partition keys always have the form
`USER#<sub>`. -/
def subFromPK (pk : String) : String :=
  match splitFirst '#' pk.data with
  | some p => String.mk p.2
  | none => ""

/-- One row of the `search_users_local` response. -/
def profileRowOut (e : DKey × Item) : Item :=
  [("sub", AttrVal.s (subFromPK e.1.1)), ("email", AttrVal.s (strAttrD e.2 "email")),
   ("given_name", AttrVal.s (strAttrD e.2 "given_name"))]

/-- The scan `FilterExpression` of `search_users_local`: the raw `query` is
used against `email` and `given_name`, the lowercased `q` against `PK`. -/
def profilePred (query q : String) (e : DKey × Item) : Bool :=
  decide (e.1.2 = "PROFILE#MAIN") &&
    (attrContains e.2 "email" query || attrContains e.2 "given_name" query ||
      ddbContains e.1.1 q)

/-- Models `search_users_local` (social.py): a table scan (DynamoDB evaluates at
most `limit` items before filtering) followed by row projection. -/
def search_users_local (t : Table) (query : String) (limit : Nat) : List Item :=
  let q := pyLower query
  let items := (t.take limit).filter (profilePred query q)
  items.map profileRowOut

/-! `app/services/realtime.py` -/

/-- A live WebSocket connection, identified abstractly. -/
abbrev Conn := Nat

/-- The hub's `rooms` dict: conversation id → set of live connections (the
set is modelled as a duplicate-free list). -/
abbrev RoomMap := List (String × List Conn)

/-- Models `convo_id` (realtime.py): `"|".join(sorted([a, b]))`. -/
def convo_id (a b : String) : String := String.intercalate "|" (pySortedPair a b)

/-- Dict lookup `rooms.get(rid)`. -/
def lookupRoom (rs : RoomMap) (rid : String) : Option (List Conn) :=
  match rs with
  | [] => none
  | e :: rest => if e.1 = rid then some e.2 else lookupRoom rest rid

/-- Store a room under its id (replace-or-append). -/
def roomsSet (rs : RoomMap) (rid : String) (room : List Conn) : RoomMap :=
  match rs with
  | [] => [(rid, room)]
  | e :: rest => if e.1 = rid then (rid, room) :: rest else e :: roomsSet rest rid room

/-- Models `rooms.pop(rid, None)`. -/
def roomsPop (rs : RoomMap) (rid : String) : RoomMap :=
  match rs with
  | [] => []
  | e :: rest => if e.1 = rid then rest else e :: roomsPop rest rid

/-- A payload pushed over a WebSocket: `{"type": ..., "item": ...}`. -/
structure WsPayload where
  ptype : String
  item : Item
deriving DecidableEq, Repr

/-- The in-memory hub state (`DMManager.rooms`, a `defaultdict(set)`). -/
structure DMManager where
  rooms : RoomMap
deriving DecidableEq, Repr

/-- Models `DMManager.connect`: defaultdict access creates the room on first
attach, then `add` registers the connection (no duplicates, set
semantics). -/
def DMManager.connect (m : DMManager) (ws : Conn) (me peer : String) : DMManager :=
  let rid := convo_id me peer
  let room := (lookupRoom m.rooms rid).getD []
  let room1 := if ws ∈ room then room else room ++ [ws]
  DMManager.mk (roomsSet m.rooms rid room1)

/-- Models `DMManager.disconnect`: early return when the room is missing or empty,
else `discard` the connection and pop the room if it became empty. -/
def DMManager.disconnect (m : DMManager) (ws : Conn) (me peer : String) : DMManager :=
  let rid := convo_id me peer
  match lookupRoom m.rooms rid with
  | none => m
  | some room =>
    if room = [] then m
    else
      let room1 := room.filter (fun c => c != ws)
      if room1 = [] then DMManager.mk (roomsPop m.rooms rid)
      else DMManager.mk (roomsSet m.rooms rid room1)

/-- Models `self.rooms[rid].discard(ws)` inside the broadcast prune loop: the
defaultdict access materialises an empty room when `rid` is absent. -/
def roomsDiscard (rs : RoomMap) (rid : String) (ws : Conn) : RoomMap :=
  match lookupRoom rs rid with
  | some room => roomsSet rs rid (room.filter (fun c => c != ws))
  | none => rs ++ [(rid, [])]

/-- The fan-out loop of `DMManager.broadcast`: visits the snapshot in order;
`sendOk` tells whether `ws.send_json` succeeds for a connection.  Returns
(delivered, dead) in iteration order. -/
def broadcastLoop (sendOk : Conn → Bool) : List Conn → List Conn × List Conn
  | [] => ([], [])
  | ws :: rest =>
    let r := broadcastLoop sendOk rest
    if sendOk ws then (ws :: r.1, r.2) else (r.1, ws :: r.2)

/-- Models `DMManager.broadcast`: snapshot the room, attempt delivery of `payload`
to every member, then discard the dead connections from the live room.
Returns the new hub state, the successful deliveries (each paired with the
payload it received), and the pruned connections. -/
def DMManager.broadcast (m : DMManager) (me peer : String) (payload : WsPayload)
    (sendOk : Conn → Bool) : DMManager × List (Conn × WsPayload) × List Conn :=
  let rid := convo_id me peer
  let room := (lookupRoom m.rooms rid).getD []
  let sd := broadcastLoop sendOk room
  (DMManager.mk (sd.2.foldl (fun rs ws => roomsDiscard rs rid ws) m.rooms),
    sd.1.map (fun c => (c, payload)), sd.2)

/-- No room entry in the registry is empty. -/
def noEmptyRooms (m : DMManager) : Prop := ∀ p ∈ m.rooms, p.2 ≠ []

/-! `api_dm` in `app/routers/chat.py` -/

/-- The observable outcome of one `POST /api/chat/dm` request. -/
structure ApiDmResult where
  table : Table
  hub : DMManager
  msg : Item
  sent : List (Conn × WsPayload)
  dead : List Conn
deriving Repr

/-- Models `api_dm` (chat.py): `send_dm` first, then
`dm_manager.broadcast(me, to_sub, {"type": "dm", "item": res["msg"]})`. -/
def api_dm (t : Table) (m : DMManager) (me to_sub text ts msg_id : String)
    (sendOk : Conn → Bool) : ApiDmResult :=
  let r := send_dm t me to_sub text ts msg_id
  let b := DMManager.broadcast m me to_sub (WsPayload.mk "dm" r.2) sendOk
  ApiDmResult.mk r.1 b.1 r.2 b.2.1 b.2.2

/-! Concrete inputs used by counterexamples. -/

/-- A 2001-character text, one past the DM truncation bound. -/
def cexLongText : String := String.mk (List.replicate 2001 'a')

/-- A table holding one profile whose email matches a query only up to
letter casing. -/
def cexProfileTable : Table :=
  [(("USER#u1", "PROFILE#MAIN"),
    [("email", AttrVal.s "ALICE@X.COM"), ("given_name", AttrVal.s ""),
     ("type", AttrVal.s "profile")])]

/-! Store lemmas. -/

theorem getItem_putItem (t : Table) (k : DKey) (v : Item) (k' : DKey) :
    getItem (putItem t k v) k' = if k' = k then some v else getItem t k' := by
  induction t with
  | nil =>
    by_cases h : k' = k
    · simp [putItem, getItem, h]
    · simp [putItem, getItem, h, Ne.symm h]
  | cons e rest ih =>
    by_cases he : e.1 = k
    · subst he
      by_cases h : k' = e.1
      · simp [putItem, getItem, h]
      · simp [putItem, getItem, h, Ne.symm h]
    · by_cases h : k' = e.1
      · subst h
        simp [putItem, getItem, he]
      · simp [putItem, getItem, he, h, Ne.symm h, ih]

theorem getItem_deleteItem (t : Table) (k : DKey) (k' : DKey) (hne : k' ≠ k) :
    getItem (deleteItem t k) k' = getItem t k' := by
  induction t with
  | nil => simp [deleteItem]
  | cons e rest ih =>
    by_cases he : e.1 = k
    · subst he
      simp [deleteItem, getItem, Ne.symm hne, ih]
    · by_cases h : k' = e.1
      · subst h
        simp [deleteItem, getItem, he]
      · simp [deleteItem, getItem, he, Ne.symm h, ih]

theorem getItem_deleteItem_same (t : Table) (k : DKey) :
    getItem (deleteItem t k) k = none := by
  induction t with
  | nil => rfl
  | cons e rest ih =>
    by_cases he : e.1 = k <;> simp [deleteItem, getItem, he, ih]

theorem getAttr_setAttr_same (it : Item) (a : String) (v : AttrVal) :
    getAttr (setAttr it a v) a = some v := by
  induction it with
  | nil => simp [setAttr, getAttr]
  | cons p rest ih =>
    by_cases h : p.1 = a <;> simp [setAttr, getAttr, h, ih]

theorem getAttr_setAttr_ne (it : Item) (a : String) (v : AttrVal) (b : String)
    (hne : b ≠ a) :
    getAttr (setAttr it a v) b = getAttr it b := by
  induction it with
  | nil => simp [setAttr, getAttr, Ne.symm hne]
  | cons p rest ih =>
    by_cases h : p.1 = a
    · subst h
      simp [setAttr, getAttr, Ne.symm hne]
    · by_cases hb : p.1 = b <;> simp [setAttr, getAttr, h, hb, hne, ih]

theorem putItem_putItem_same (t : Table) (k : DKey) (v w : Item) :
    putItem (putItem t k v) k w = putItem t k w := by
  induction t with
  | nil => simp [putItem]
  | cons e rest ih =>
    by_cases he : e.1 = k
    · simp [putItem, he]
    · simp [putItem, he, ih]

theorem getItem_eq_none_of_forall_ne (t : Table) (k : DKey)
    (h : ∀ e ∈ t, e.1 ≠ k) : getItem t k = none := by
  induction t with
  | nil => rfl
  | cons e rest ih =>
    have h1 : e.1 ≠ k := h e (List.mem_cons_self e rest)
    simp only [getItem, if_neg h1]
    exact ih (fun x hx => h x (List.mem_cons_of_mem e hx))

theorem putItem_of_absent (t : Table) (k : DKey) (v : Item)
    (h : getItem t k = none) : putItem t k v = t ++ [(k, v)] := by
  induction t with
  | nil => rfl
  | cons e rest ih =>
    by_cases he : e.1 = k
    · simp [getItem, he] at h
    · simp only [getItem, if_neg he] at h
      simp [putItem, he, ih h]

/-! Order lemmas for the Python lexicographic comparison. -/

theorem charListLt_irrefl (x : List Char) : charListLt x x = false := by
  induction x with
  | nil => rfl
  | cons c cs ih => simp [charListLt, ih]

theorem charListLt_asymm (x y : List Char) (h : charListLt x y = true) :
    charListLt y x = false := by
  induction x generalizing y with
  | nil =>
    cases y with
    | nil => simp [charListLt] at h
    | cons d ds => simp [charListLt]
  | cons c cs ih =>
    cases y with
    | nil => simp [charListLt] at h
    | cons d ds =>
      by_cases h1 : c.toNat < d.toNat
      · have h2 : ¬ d.toNat < c.toNat := by omega
        simp [charListLt, h1, h2]
      · by_cases h2 : d.toNat < c.toNat
        · simp [charListLt, h1, h2] at h
        · have h3 := ih ds (by simpa [charListLt, h1, h2] using h)
          simp [charListLt, h1, h2, h3]

theorem charListLt_antisymm (x y : List Char) (hxy : charListLt x y = false)
    (hyx : charListLt y x = false) : x = y := by
  induction x generalizing y with
  | nil =>
    cases y with
    | nil => rfl
    | cons d ds => simp [charListLt] at hxy
  | cons c cs ih =>
    cases y with
    | nil => simp [charListLt] at hyx
    | cons d ds =>
      by_cases h1 : c.toNat < d.toNat
      · simp [charListLt, h1] at hxy
      · by_cases h2 : d.toNat < c.toNat
        · simp [charListLt, h2] at hyx
        · have hn : c.toNat = d.toNat := by omega
          have hcd : c = d := Char.ext (UInt32.toNat.inj hn)
          have htl := ih ds (by simpa [charListLt, h1, h2] using hxy)
            (by simpa [charListLt, h1, h2] using hyx)
          rw [hcd, htl]

theorem pySortedPair_comm (a b : String) : pySortedPair a b = pySortedPair b a := by
  unfold pySortedPair pyStrLt
  by_cases h1 : charListLt b.data a.data = true
  · have h2 := charListLt_asymm _ _ h1
    simp [h1, h2]
  · have h1f : charListLt b.data a.data = false := by
      cases hc : charListLt b.data a.data
      · rfl
      · exact absurd hc h1
    by_cases h2 : charListLt a.data b.data = true
    · simp [h1f, h2]
    · have h2f : charListLt a.data b.data = false := by
        cases hc : charListLt a.data b.data
        · rfl
        · exact absurd hc h2
      have hab : a = b := by
        have hd := charListLt_antisymm a.data b.data h2f h1f
        cases a
        cases b
        exact congrArg String.mk hd
      simp [h1f, h2f, hab]

/-- C2: the conversation identifier is commutative — `_convo_id(a, b)`
equals `_convo_id(b, a)` for all participant subjects — and the hub's
`convo_id` computes the very same identifier, so persistence and broadcast
address the same conversation regardless of argument order. -/
theorem convo_id_commutative :
    (∀ a b : String, _convo_id a b = _convo_id b a) ∧
    (∀ a b : String, convo_id a b = _convo_id a b) := by
  constructor
  · intro a b
    unfold _convo_id
    rw [pySortedPair_comm]
  · intro a b
    rfl

theorem putItem_absorb (t : Table) (k1 k2 : DKey) (v1 v2 w1 w2 : Item) :
    putItem (putItem (putItem (putItem t k1 v1) k2 v2) k1 w1) k2 w2 =
      putItem (putItem t k1 w1) k2 w2 := by
  by_cases hk : k1 = k2
  · subst hk
    simp [putItem_putItem_same]
  · induction t with
    | nil => simp [putItem, hk, Ne.symm hk]
    | cons e rest ih =>
      by_cases he1 : e.1 = k1
      · simp [putItem, he1, hk, putItem_putItem_same]
      · by_cases he2 : e.1 = k2
        · simp [putItem, he1, he2, Ne.symm hk, putItem_putItem_same]
        · simp [putItem, he1, he2, ih]

/-- C8 counterexample: re-running `connect_users` at a later clock reading
overwrites the edge records with a fresh `created_at`, so the stored state
after the second run differs from the state after the first run. -/
theorem connect_users_second_run_differs :
    getItem (connect_users (connect_users [] "a" "b" "2024-01-01T00:00:00")
        "a" "b" "2024-01-02T00:00:00") ("USER#a", "CONN#b") ≠
      getItem (connect_users [] "a" "b" "2024-01-01T00:00:00")
        ("USER#a", "CONN#b") := by
  decide

/-- C8 amended: `connect_users(a, b)` writes both mirrored edge records, and
re-running it overwrites those same two records, so the state after a re-run
equals the state of a single run at the re-run's timestamp; in particular a
re-run with an unchanged clock reading leaves the stored state identical. -/
theorem connect_users_mirrored_and_overwrite (t : Table) (a b now1 now2 : String) :
    connect_users (connect_users t a b now1) a b now2 = connect_users t a b now2 ∧
    getItem (connect_users t a b now1) ("USER#" ++ a, "CONN#" ++ b) =
      some [("PK", AttrVal.s ("USER#" ++ a)), ("SK", AttrVal.s ("CONN#" ++ b)),
        ("created_at", AttrVal.s now1), ("type", AttrVal.s "conn")] ∧
    getItem (connect_users t a b now1) ("USER#" ++ b, "CONN#" ++ a) =
      some [("PK", AttrVal.s ("USER#" ++ b)), ("SK", AttrVal.s ("CONN#" ++ a)),
        ("created_at", AttrVal.s now1), ("type", AttrVal.s "conn")] := by
  refine ⟨putItem_absorb t _ _ _ _ _ _, ?_, ?_⟩
  · rw [connect_users, getItem_putItem]
    by_cases hk : (("USER#" ++ a : String), ("CONN#" ++ b : String)) =
        (("USER#" ++ b : String), ("CONN#" ++ a : String))
    · have h1 : ("USER#" ++ a : String) = "USER#" ++ b := congrArg Prod.fst hk
      have h2 : ("CONN#" ++ b : String) = "CONN#" ++ a := congrArg Prod.snd hk
      rw [if_pos hk, ← h1, ← h2]
    · rw [if_neg hk, getItem_putItem, if_pos rfl]
  · rw [connect_users, getItem_putItem, if_pos rfl]

/-! Hub registry lemmas. -/

theorem mem_roomsSet (rs : RoomMap) (rid : String) (room : List Conn)
    (p : String × List Conn) (h : p ∈ roomsSet rs rid room) :
    p = (rid, room) ∨ p ∈ rs := by
  induction rs with
  | nil =>
    simp only [roomsSet] at h
    exact Or.inl (List.mem_singleton.mp h)
  | cons e rest ih =>
    by_cases he : e.1 = rid
    · simp only [roomsSet, if_pos he] at h
      rcases List.mem_cons.mp h with h1 | h1
      · exact Or.inl h1
      · exact Or.inr (List.mem_cons_of_mem e h1)
    · simp only [roomsSet, if_neg he] at h
      rcases List.mem_cons.mp h with h1 | h1
      · exact Or.inr (h1 ▸ List.mem_cons_self e rest)
      · rcases ih h1 with h2 | h2
        · exact Or.inl h2
        · exact Or.inr (List.mem_cons_of_mem e h2)

theorem mem_roomsPop (rs : RoomMap) (rid : String) (p : String × List Conn)
    (h : p ∈ roomsPop rs rid) : p ∈ rs := by
  induction rs with
  | nil => simp [roomsPop] at h
  | cons e rest ih =>
    by_cases he : e.1 = rid
    · simp only [roomsPop, if_pos he] at h
      exact List.mem_cons_of_mem e h
    · simp only [roomsPop, if_neg he] at h
      rcases List.mem_cons.mp h with h1 | h1
      · exact h1 ▸ List.mem_cons_self e rest
      · exact List.mem_cons_of_mem e (ih h1)

theorem mem_roomsDiscard (rs : RoomMap) (rid : String) (ws : Conn)
    (p : String × List Conn) (h : p ∈ roomsDiscard rs rid ws) :
    p.1 = rid ∨ p ∈ rs := by
  unfold roomsDiscard at h
  cases hl : lookupRoom rs rid with
  | some room =>
    rw [hl] at h
    rcases mem_roomsSet _ _ _ _ h with h1 | h1
    · exact Or.inl (congrArg Prod.fst h1)
    · exact Or.inr h1
  | none =>
    rw [hl] at h
    rcases List.mem_append.mp h with h1 | h1
    · exact Or.inr h1
    · exact Or.inl (congrArg Prod.fst (List.mem_singleton.mp h1))

theorem mem_foldl_roomsDiscard (ds : List Conn) (rs : RoomMap) (rid : String)
    (p : String × List Conn)
    (h : p ∈ ds.foldl (fun acc ws => roomsDiscard acc rid ws) rs) :
    p.1 = rid ∨ p ∈ rs := by
  induction ds generalizing rs with
  | nil => exact Or.inr h
  | cons d ds2 ih =>
    rcases ih (roomsDiscard rs rid d) h with h1 | h1
    · exact Or.inl h1
    · exact mem_roomsDiscard _ _ _ _ h1

theorem lookupRoom_roomsSet_same (rs : RoomMap) (rid : String) (room : List Conn) :
    lookupRoom (roomsSet rs rid room) rid = some room := by
  induction rs with
  | nil => simp [roomsSet, lookupRoom]
  | cons e rest ih =>
    by_cases he : e.1 = rid <;> simp [roomsSet, lookupRoom, he, ih]

theorem lookupRoom_roomsSet_ne (rs : RoomMap) (rid : String) (room : List Conn)
    (rid2 : String) (h : rid2 ≠ rid) :
    lookupRoom (roomsSet rs rid room) rid2 = lookupRoom rs rid2 := by
  induction rs with
  | nil => simp [roomsSet, lookupRoom, Ne.symm h]
  | cons e rest ih =>
    by_cases he : e.1 = rid
    · subst he
      simp [roomsSet, lookupRoom, Ne.symm h]
    · simp [roomsSet, lookupRoom, he, ih]

theorem lookupRoom_append_single (rs : RoomMap) (rid : String) (room : List Conn)
    (h : lookupRoom rs rid = none) :
    lookupRoom (rs ++ [(rid, room)]) rid = some room := by
  induction rs with
  | nil => simp [lookupRoom]
  | cons e rest ih =>
    by_cases he : e.1 = rid
    · simp [lookupRoom, he] at h
    · simp only [List.cons_append, lookupRoom, if_neg he] at h ⊢
      exact ih h

theorem lookupRoom_append_single_ne (rs : RoomMap) (rid : String)
    (room : List Conn) (rid2 : String) (h : rid2 ≠ rid) :
    lookupRoom (rs ++ [(rid, room)]) rid2 = lookupRoom rs rid2 := by
  induction rs with
  | nil => simp [lookupRoom, Ne.symm h]
  | cons e rest ih =>
    by_cases he : e.1 = rid2
    · simp only [List.cons_append, lookupRoom, if_pos he]
    · simp only [List.cons_append, lookupRoom, if_neg he]
      exact ih

theorem mem_getD_roomsDiscard (rs : RoomMap) (rid : String) (w : Conn)
    (rid2 : String) (c : Conn)
    (h : c ∈ (lookupRoom (roomsDiscard rs rid w) rid2).getD []) :
    c ∈ (lookupRoom rs rid2).getD [] := by
  unfold roomsDiscard at h
  cases hl : lookupRoom rs rid with
  | some room =>
    rw [hl] at h
    by_cases h2 : rid2 = rid
    · subst h2
      rw [lookupRoom_roomsSet_same] at h
      rw [hl]
      exact List.mem_of_mem_filter h
    · rwa [lookupRoom_roomsSet_ne _ _ _ _ h2] at h
  | none =>
    rw [hl] at h
    by_cases h2 : rid2 = rid
    · subst h2
      rw [lookupRoom_append_single _ _ _ hl] at h
      exact absurd h (List.not_mem_nil c)
    · rwa [lookupRoom_append_single_ne _ _ _ _ h2] at h

theorem roomsDiscard_removes (rs : RoomMap) (rid : String) (w : Conn) (c : Conn)
    (h : c ∈ (lookupRoom (roomsDiscard rs rid w) rid).getD []) : c ≠ w := by
  unfold roomsDiscard at h
  cases hl : lookupRoom rs rid with
  | some room =>
    rw [hl, lookupRoom_roomsSet_same] at h
    have := List.of_mem_filter h
    simpa using this
  | none =>
    rw [hl, lookupRoom_append_single _ _ _ hl] at h
    exact absurd h (List.not_mem_nil c)

theorem mem_getD_foldl_discard (ds : List Conn) (rs : RoomMap) (rid : String)
    (rid2 : String) (c : Conn)
    (h : c ∈ (lookupRoom (ds.foldl (fun acc ws => roomsDiscard acc rid ws) rs)
      rid2).getD []) :
    c ∈ (lookupRoom rs rid2).getD [] := by
  induction ds generalizing rs with
  | nil => exact h
  | cons d ds2 ih => exact mem_getD_roomsDiscard _ _ _ _ _ (ih (roomsDiscard rs rid d) h)

theorem foldl_discard_not_mem (ds : List Conn) (rid : String) (c : Conn)
    (hc : c ∈ ds) (rs : RoomMap) :
    c ∉ (lookupRoom (ds.foldl (fun acc ws => roomsDiscard acc rid ws) rs)
      rid).getD [] := by
  induction ds generalizing rs with
  | nil => cases hc
  | cons d ds2 ih =>
    rcases List.mem_cons.mp hc with h1 | h1
    · subst h1
      intro h
      have h2 := mem_getD_foldl_discard ds2 (roomsDiscard rs rid c) rid rid c h
      exact roomsDiscard_removes rs rid c c h2 rfl
    · exact ih h1 (roomsDiscard rs rid d)

theorem broadcastLoop_fst (sendOk : Conn → Bool) (l : List Conn) :
    (broadcastLoop sendOk l).1 = l.filter sendOk := by
  induction l with
  | nil => rfl
  | cons c cs ih =>
    by_cases h : sendOk c <;> simp [broadcastLoop, List.filter_cons, h, ih]

theorem broadcastLoop_snd (sendOk : Conn → Bool) (l : List Conn) :
    (broadcastLoop sendOk l).2 = l.filter (fun c => !sendOk c) := by
  induction l with
  | nil => rfl
  | cons c cs ih =>
    by_cases h : sendOk c <;> simp [broadcastLoop, List.filter_cons, h, ih]

/-- C5 counterexample: attach one connection to a fresh room, then broadcast
while its send fails — the prune loop empties the room but leaves the empty
entry in the registry, so the registry does retain an empty room. -/
theorem broadcast_retains_empty_room :
    ¬ noEmptyRooms (DMManager.broadcast (DMManager.connect (DMManager.mk []) 0 "a" "b")
        "a" "b" (WsPayload.mk "dm" []) (fun _ => false)).1 := by
  intro h
  exact h ("a|b", []) (by decide) rfl

/-- C5 amended: a room is created on first attach, and `connect` and
`disconnect` never leave an empty room entry (detach of the last member
removes the entry); however a `broadcast` that prunes failed connections can
leave an empty entry, and any empty entry present after a broadcast is the
broadcast's own room. -/
theorem hub_room_lifecycle (m : DMManager) (ws : Conn) (a b : String)
    (payload : WsPayload) (sendOk : Conn → Bool) (hinv : noEmptyRooms m) :
    noEmptyRooms (DMManager.connect m ws a b) ∧
    noEmptyRooms (DMManager.disconnect m ws a b) ∧
    (∀ p ∈ (DMManager.broadcast m a b payload sendOk).1.rooms,
      p.2 = [] → p.1 = convo_id a b) := by
  refine ⟨?_, ?_, ?_⟩
  · intro p hp
    unfold DMManager.connect at hp
    rcases mem_roomsSet _ _ _ _ hp with h1 | h1
    · subst h1
      by_cases hmem : ws ∈ (lookupRoom m.rooms (convo_id a b)).getD []
      · simp only [if_pos hmem]
        exact List.ne_nil_of_mem hmem
      · simp only [if_neg hmem]
        simp
    · exact hinv p h1
  · intro p hp
    simp only [DMManager.disconnect] at hp
    cases hl : lookupRoom m.rooms (convo_id a b) with
    | none =>
      simp only [hl] at hp
      exact hinv p hp
    | some room =>
      simp only [hl] at hp
      by_cases hre : room = []
      · simp only [if_pos hre] at hp
        exact hinv p hp
      · simp only [if_neg hre] at hp
        by_cases hf : room.filter (fun c => c != ws) = []
        · simp only [if_pos hf] at hp
          exact hinv p (mem_roomsPop _ _ _ hp)
        · simp only [if_neg hf] at hp
          rcases mem_roomsSet _ _ _ _ hp with h1 | h1
          · subst h1
            exact hf
          · exact hinv p h1
  · intro p hp hp2
    simp only [DMManager.broadcast] at hp
    rcases mem_foldl_roomsDiscard _ _ _ _ hp with h1 | h1
    · exact h1
    · exact absurd hp2 (hinv p h1)

/-- C9: for every room and payload, broadcast attempts delivery to exactly
the connections attached at the start of the iteration: the successful ones
each receive the payload (a failure elsewhere in the loop cannot prevent
this), the failed ones are collected, never raise, and are removed from the
room afterwards. -/
theorem broadcast_fanout (m : DMManager) (a b : String) (payload : WsPayload)
    (sendOk : Conn → Bool) :
    (DMManager.broadcast m a b payload sendOk).2.1 =
      (((lookupRoom m.rooms (convo_id a b)).getD []).filter sendOk).map
        (fun c => (c, payload)) ∧
    (DMManager.broadcast m a b payload sendOk).2.2 =
      ((lookupRoom m.rooms (convo_id a b)).getD []).filter (fun c => !sendOk c) ∧
    (∀ c ∈ (lookupRoom m.rooms (convo_id a b)).getD [], sendOk c = true →
      (c, payload) ∈ (DMManager.broadcast m a b payload sendOk).2.1) ∧
    (∀ c ∈ (DMManager.broadcast m a b payload sendOk).2.2,
      c ∉ (lookupRoom (DMManager.broadcast m a b payload sendOk).1.rooms
        (convo_id a b)).getD []) := by
  refine ⟨?_, ?_, ?_, ?_⟩
  · simp only [DMManager.broadcast, broadcastLoop_fst]
  · simp only [DMManager.broadcast, broadcastLoop_snd]
  · intro c hc hok
    simp only [DMManager.broadcast, broadcastLoop_fst]
    exact List.mem_map_of_mem _ (List.mem_filter.mpr ⟨hc, hok⟩)
  · intro c hc
    simp only [DMManager.broadcast] at hc ⊢
    exact foldl_discard_not_mem _ _ _ hc m.rooms

/-! Key-prefix disequalities. -/

theorem dm_pk_ne_user_pk (x y : String) : ("DM#" ++ x : String) ≠ "USER#" ++ y := by
  obtain ⟨lx⟩ := x
  obtain ⟨ly⟩ := y
  intro h
  have h3 : (some 'D' : Option Char) = some 'U' :=
    congrArg (fun z : String => z.data.head?) h
  exact absurd h3 (by decide)

theorem map_feed_ne_like (u : String) : ("MAP#FEED" : String) ≠ "LIKE#" ++ u := by
  obtain ⟨lu⟩ := u
  intro h
  have h3 : (some 'M' : Option Char) = some 'L' :=
    congrArg (fun z : String => z.data.head?) h
  exact absurd h3 (by decide)

/-! C10: malformed feed cursors. -/

theorem splitFirst_eq_none (sep : Char) (l : List Char) (h : sep ∉ l) :
    splitFirst sep l = none := by
  induction l with
  | nil => rfl
  | cons c cs ih =>
    have hne : ¬ c = sep := fun hh => h (hh ▸ List.mem_cons_self c cs)
    simp only [splitFirst, if_neg hne]
    rw [ih (fun hm => h (List.mem_cons_of_mem c hm))]
    rfl

/-- C10: a cursor string without the pipe separator makes the two-element
unpacking raise inside the try/except, which is swallowed: `list_feed`
silently ignores the cursor and returns the first feed page, exactly as a
cursor-less call does. -/
theorem list_feed_ignores_malformed_cursor (t : Table) (limit : Nat) (c : String)
    (h : '|' ∉ c.data) :
    list_feed t limit (some c) = list_feed t limit none := by
  have hp : parseCursor c = none := by
    unfold parseCursor
    rw [splitFirst_eq_none _ _ h]
    rfl
  simp [list_feed, hp]

theorem list_feed_ignores_malformed_cursor_witness :
    ('|' ∉ "opaque-cursor".data) ∧
    list_feed [(("APP#FEED", "POST#2024#p1"), [("post_id", AttrVal.s "p1")])] 20
        (some "opaque-cursor") =
      list_feed [(("APP#FEED", "POST#2024#p1"), [("post_id", AttrVal.s "p1")])] 20
        none :=
  ⟨by decide, list_feed_ignores_malformed_cursor _ 20 _ (by decide)⟩

/-! C7: user search casing. -/

/-- C7 counterexample: the sole profile's email equals the query up to
letter casing — a case-insensitive substring match succeeds — yet
`search_users_local` returns nothing, because the email comparison uses the
raw query case-sensitively. -/
theorem search_users_not_case_insensitive :
    ddbContains (pyLower "ALICE@X.COM") (pyLower "alice") = true ∧
    search_users_local cexProfileTable "alice" 10 = [] := by decide

/-- C7 amended: `search_users_local` scans at most `limit` records and
returns a row per profile record whose email or given name contains the raw
query case-sensitively, or whose partition key contains the lowercased
query; matching over email and given-name is case-sensitive, not
case-insensitive. -/
theorem search_users_membership (t : Table) (query : String) (limit : Nat)
    (o : Item) :
    o ∈ search_users_local t query limit ↔
      ∃ e, e ∈ t.take limit ∧ (e.1.2 = "PROFILE#MAIN" ∧
        (attrContains e.2 "email" query = true ∨
         attrContains e.2 "given_name" query = true ∨
         ddbContains e.1.1 (pyLower query) = true)) ∧ o = profileRowOut e := by
  simp only [search_users_local, List.mem_map, List.mem_filter, profilePred,
    Bool.and_eq_true, Bool.or_eq_true, decide_eq_true_eq]
  constructor
  · rintro ⟨e, ⟨he1, he2, he3⟩, he4⟩
    exact ⟨e, he1, ⟨he2, or_assoc.mp he3⟩, he4.symm⟩
  · rintro ⟨e, he1, ⟨he2, he3⟩, he4⟩
    exact ⟨e, ⟨he1, he2, or_assoc.mpr he3⟩, he4.symm⟩

/-! C4: DM truncation and the returned message. -/

/-- C4 counterexample: at a 2001-character text, the persisted record stores
the 2000-character truncation while the returned message carries the
original text, so the message in the returned value is not the text that was
persisted. -/
theorem send_dm_returns_untruncated :
    getAttr ((getItem (send_dm [] "a" "b" cexLongText "T1" "m1").1
        ("DM#a|b", "MSG#T1#m1")).getD []) "text" ≠
      getAttr (send_dm [] "a" "b" cexLongText "T1" "m1").2 "text" := by
  have h1 : getAttr ((getItem (send_dm [] "a" "b" cexLongText "T1" "m1").1
      ("DM#a|b", "MSG#T1#m1")).getD []) "text" =
      some (AttrVal.s (pySlice cexLongText 2000)) := rfl
  have h2 : getAttr (send_dm [] "a" "b" cexLongText "T1" "m1").2 "text" =
      some (AttrVal.s cexLongText) := rfl
  rw [h1, h2]
  intro h
  have h3 : pySlice cexLongText 2000 = cexLongText := AttrVal.s.inj (Option.some.inj h)
  have h4 := congrArg (fun z : String => z.data.length) h3
  simp only [pySlice, cexLongText, List.length_take, List.length_replicate] at h4
  omega

/-- C4 amended: `send_dm` persists the message record with the text
truncated to 2000 characters, then writes both participants' pointer
records; the message carried in the returned value, however, holds the
original untruncated text, not the persisted one. -/
theorem send_dm_writes (t : Table) (sSub rSub text ts mid : String) :
    getItem (send_dm t sSub rSub text ts mid).1
        ("DM#" ++ _convo_id sSub rSub, "MSG#" ++ ts ++ "#" ++ mid) =
      some (dmMsgRecord sSub rSub text ts mid) ∧
    getItem (send_dm t sSub rSub text ts mid).1
        ("USER#" ++ sSub, "DM#" ++ _convo_id sSub rSub) =
      some [("PK", AttrVal.s ("USER#" ++ sSub)),
        ("SK", AttrVal.s ("DM#" ++ _convo_id sSub rSub)),
        ("type", AttrVal.s "dm_ptr"), ("updated_at", AttrVal.s ts)] ∧
    getItem (send_dm t sSub rSub text ts mid).1
        ("USER#" ++ rSub, "DM#" ++ _convo_id sSub rSub) =
      some [("PK", AttrVal.s ("USER#" ++ rSub)),
        ("SK", AttrVal.s ("DM#" ++ _convo_id sSub rSub)),
        ("type", AttrVal.s "dm_ptr"), ("updated_at", AttrVal.s ts)] ∧
    getAttr (send_dm t sSub rSub text ts mid).2 "text" = some (AttrVal.s text) := by
  have hmS : (("DM#" ++ _convo_id sSub rSub : String),
      ("MSG#" ++ ts ++ "#" ++ mid : String)) ≠
      (("USER#" ++ sSub : String), ("DM#" ++ _convo_id sSub rSub : String)) := by
    intro h
    exact dm_pk_ne_user_pk _ _ (congrArg Prod.fst h)
  have hmR : (("DM#" ++ _convo_id sSub rSub : String),
      ("MSG#" ++ ts ++ "#" ++ mid : String)) ≠
      (("USER#" ++ rSub : String), ("DM#" ++ _convo_id sSub rSub : String)) := by
    intro h
    exact dm_pk_ne_user_pk _ _ (congrArg Prod.fst h)
  refine ⟨?_, ?_, ?_, rfl⟩
  · simp only [send_dm]
    rw [getItem_putItem, if_neg hmR, getItem_putItem, if_neg hmS,
      getItem_putItem, if_pos rfl]
  · simp only [send_dm]
    rw [getItem_putItem]
    by_cases hk : (("USER#" ++ sSub : String), ("DM#" ++ _convo_id sSub rSub : String)) =
        (("USER#" ++ rSub : String), ("DM#" ++ _convo_id sSub rSub : String))
    · have h1 : ("USER#" ++ sSub : String) = "USER#" ++ rSub := congrArg Prod.fst hk
      rw [if_pos hk, ← h1]
    · rw [if_neg hk, getItem_putItem, if_pos rfl]
  · simp only [send_dm]
    rw [getItem_putItem, if_pos rfl]

theorem hub_room_lifecycle_witness :
    noEmptyRooms (DMManager.mk [("x|y", [1])]) ∧
    (noEmptyRooms (DMManager.connect (DMManager.mk [("x|y", [1])]) 2 "a" "b") ∧
     noEmptyRooms (DMManager.disconnect (DMManager.mk [("x|y", [1])]) 2 "a" "b") ∧
     (∀ p ∈ (DMManager.broadcast (DMManager.mk [("x|y", [1])]) "a" "b"
         (WsPayload.mk "dm" []) (fun _ => true)).1.rooms,
       p.2 = [] → p.1 = convo_id "a" "b")) :=
  ⟨by
    intro p hp
    rw [List.mem_singleton.mp hp]
    decide,
   hub_room_lifecycle (DMManager.mk [("x|y", [1])]) 2 "a" "b"
    (WsPayload.mk "dm" []) (fun _ => true) (by
      intro p hp
      rw [List.mem_singleton.mp hp]
      decide)⟩

/-! C6: like toggle with a missing feed mapping. -/

theorem feed_key_none_iff (t : Table) (pid : String) :
    _get_feed_key_from_post t pid = Except.ok none ↔
      getItem t (mapKey pid) = none := by
  constructor
  · intro hq
    cases hg : getItem t (mapKey pid) with
    | none => simp [hg]
    | some m =>
      exfalso
      cases h1 : getAttr m "feed_pk" with
      | none =>
        have h0 : _get_feed_key_from_post t pid = Except.error "KeyError" := by
          simp only [_get_feed_key_from_post, hg, h1]
        rw [h0] at hq
        simp at hq
      | some v =>
        cases v with
        | n z =>
          have h0 : _get_feed_key_from_post t pid = Except.error "KeyError" := by
            simp only [_get_feed_key_from_post, hg, h1]
          rw [h0] at hq
          simp at hq
        | s fpk =>
          cases h2 : getAttr m "feed_sk" with
          | none =>
            have h0 : _get_feed_key_from_post t pid = Except.error "KeyError" := by
              simp only [_get_feed_key_from_post, hg, h1, h2]
            rw [h0] at hq
            simp at hq
          | some w =>
            cases w with
            | n z =>
              have h0 : _get_feed_key_from_post t pid = Except.error "KeyError" := by
                simp only [_get_feed_key_from_post, hg, h1, h2]
              rw [h0] at hq
              simp at hq
            | s fsk =>
              have h0 : _get_feed_key_from_post t pid =
                  Except.ok (some (fpk, fsk)) := by
                simp only [_get_feed_key_from_post, hg, h1, h2]
              rw [h0] at hq
              simp at hq
  · intro hq
    simp only [_get_feed_key_from_post, hq]

/-- C6: when the post's id→feed mapping item is absent, `toggle_like` still
creates or deletes the like record (reporting the corresponding `liked`
flag), performs no counter update on any feed item — no key other than the
like record changes — and raises no error. -/
theorem toggle_like_no_mapping (t : Table) (pid u ts : String)
    (hmap : _get_feed_key_from_post t pid = Except.ok none) :
    ∃ t1, toggle_like t pid u ts = Except.ok (t1,
        (getItem t (like_key pid u)).isNone) ∧
      (∀ k, k ≠ like_key pid u → getItem t1 k = getItem t k) ∧
      getItem t1 (like_key pid u) =
        (if (getItem t (like_key pid u)).isNone then some (likeRecord pid u ts)
         else none) := by
  have hmapn := (feed_key_none_iff t pid).mp hmap
  have hkne : mapKey pid ≠ like_key pid u := by
    intro h
    exact map_feed_ne_like u (congrArg Prod.snd h)
  cases hlk : getItem t (like_key pid u) with
  | none =>
    have hm1 : _get_feed_key_from_post (putItem t (like_key pid u)
        (likeRecord pid u ts)) pid = Except.ok none := by
      refine (feed_key_none_iff _ _).mpr ?_
      rw [getItem_putItem, if_neg hkne]
      exact hmapn
    refine ⟨putItem t (like_key pid u) (likeRecord pid u ts), ?_, ?_, ?_⟩
    · simp [toggle_like, putIfAbsent, hlk, hm1]
    · intro k hk
      rw [getItem_putItem, if_neg hk]
    · rw [getItem_putItem, if_pos rfl]
      simp
  | some x =>
    have hm1 : _get_feed_key_from_post (deleteItem t (like_key pid u)) pid =
        Except.ok none := by
      refine (feed_key_none_iff _ _).mpr ?_
      rw [getItem_deleteItem _ _ _ hkne]
      exact hmapn
    refine ⟨deleteItem t (like_key pid u), ?_, ?_, ?_⟩
    · simp [toggle_like, putIfAbsent, hlk, hm1]
    · intro k hk
      rw [getItem_deleteItem _ _ _ hk]
    · rw [getItem_deleteItem_same]
      simp

theorem toggle_like_no_mapping_witness :
    (_get_feed_key_from_post ([] : Table) "p" = Except.ok none) ∧
    (∃ t1, toggle_like ([] : Table) "p" "u" "T" = Except.ok (t1,
        (getItem ([] : Table) (like_key "p" "u")).isNone) ∧
      (∀ k, k ≠ like_key "p" "u" → getItem t1 k = getItem ([] : Table) k) ∧
      getItem t1 (like_key "p" "u") =
        (if (getItem ([] : Table) (like_key "p" "u")).isNone then
          some (likeRecord "p" "u" "T") else none)) :=
  ⟨rfl, toggle_like_no_mapping [] "p" "u" "T" rfl⟩

/-! C3: double like toggle. -/

theorem feed_key_congr (t t2 : Table) (pid : String)
    (h : getItem t2 (mapKey pid) = getItem t (mapKey pid)) :
    _get_feed_key_from_post t2 pid = _get_feed_key_from_post t pid := by
  unfold _get_feed_key_from_post
  rw [h]

theorem feed_key_resolves (t2 : Table) (pid : String) (fk : DKey) (m2 : Item)
    (hg : getItem t2 (mapKey pid) = some m2)
    (h1 : getAttr m2 "feed_pk" = some (AttrVal.s fk.1))
    (h2 : getAttr m2 "feed_sk" = some (AttrVal.s fk.2)) :
    _get_feed_key_from_post t2 pid = Except.ok (some fk) := by
  simp only [_get_feed_key_from_post, hg, h1, h2, Prod.mk.eta]

theorem feed_key_some_unpack (t : Table) (pid : String) (fk : DKey)
    (h : _get_feed_key_from_post t pid = Except.ok (some fk)) :
    ∃ m, getItem t (mapKey pid) = some m ∧
      getAttr m "feed_pk" = some (AttrVal.s fk.1) ∧
      getAttr m "feed_sk" = some (AttrVal.s fk.2) := by
  cases hg : getItem t (mapKey pid) with
  | none =>
    rw [(feed_key_none_iff t pid).mpr hg] at h
    simp at h
  | some m =>
    refine ⟨m, rfl, ?_⟩
    cases h1 : getAttr m "feed_pk" with
    | none =>
      have h0 : _get_feed_key_from_post t pid = Except.error "KeyError" := by
        simp only [_get_feed_key_from_post, hg, h1]
      rw [h0] at h
      simp at h
    | some v =>
      cases v with
      | n z =>
        have h0 : _get_feed_key_from_post t pid = Except.error "KeyError" := by
          simp only [_get_feed_key_from_post, hg, h1]
        rw [h0] at h
        simp at h
      | s fpk =>
        cases h2 : getAttr m "feed_sk" with
        | none =>
          have h0 : _get_feed_key_from_post t pid = Except.error "KeyError" := by
            simp only [_get_feed_key_from_post, hg, h1, h2]
          rw [h0] at h
          simp at h
        | some w =>
          cases w with
          | n z =>
            have h0 : _get_feed_key_from_post t pid = Except.error "KeyError" := by
              simp only [_get_feed_key_from_post, hg, h1, h2]
            rw [h0] at h
            simp at h
          | s fsk =>
            have h0 : _get_feed_key_from_post t pid =
                Except.ok (some (fpk, fsk)) := by
              simp only [_get_feed_key_from_post, hg, h1, h2]
            rw [h0] at h
            simp only [Except.ok.injEq, Option.some.injEq] at h
            rw [← h]
            exact ⟨rfl, rfl⟩

theorem likeCount_some_unpack (t : Table) (k : DKey) (c : Int)
    (h : likeCount t k = some c) :
    ∃ fi, getItem t k = some fi ∧
      getAttr fi "like_count" = some (AttrVal.n c) := by
  cases hg : getItem t k with
  | none =>
    have h0 : likeCount t k = none := by simp only [likeCount, hg]
    rw [h0] at h
    simp at h
  | some fi =>
    refine ⟨fi, rfl, ?_⟩
    cases h1 : getAttr fi "like_count" with
    | none =>
      have h0 : likeCount t k = none := by simp only [likeCount, hg, h1]
      rw [h0] at h
      simp at h
    | some v =>
      cases v with
      | s w =>
        have h0 : likeCount t k = none := by simp only [likeCount, hg, h1]
        rw [h0] at h
        simp at h
      | n z =>
        have h0 : likeCount t k = some z := by simp only [likeCount, hg, h1]
        rw [h0] at h
        simp only [Option.some.injEq] at h
        rw [← h]

theorem addToCounter_spec (t : Table) (k : DKey) (d : Int) (fi : Item) (c : Int)
    (hg : getItem t k = some fi)
    (ha : getAttr fi "like_count" = some (AttrVal.n c)) :
    likeCount (addToCounter t k "like_count" d) k = some (c + d) ∧
    (∀ k2, k2 ≠ k → getItem (addToCounter t k "like_count" d) k2 = getItem t k2) ∧
    getItem (addToCounter t k "like_count" d) k =
      some (setAttr fi "like_count" (AttrVal.n (c + d))) := by
  simp only [addToCounter, hg, ha]
  refine ⟨?_, ?_, ?_⟩
  · unfold likeCount
    rw [getItem_putItem, if_pos rfl]
    simp [getAttr_setAttr_same]
  · intro k2 hk2
    rw [getItem_putItem, if_neg hk2]
  · rw [getItem_putItem, if_pos rfl]

/-- C3: on a post whose id→feed mapping resolves and which the user holds no
like record for, toggling twice first returns liked=true, then liked=false,
and the post's like_count after the second call equals its value before the
first call (passing through value + 1 in between). -/
theorem toggle_like_twice_roundtrip (t : Table) (pid u ts1 ts2 : String)
    (fk : DKey) (c0 : Int)
    (hnolike : getItem t (like_key pid u) = none)
    (hmap : _get_feed_key_from_post t pid = Except.ok (some fk))
    (hne : fk ≠ like_key pid u)
    (hcount : likeCount t fk = some c0) :
    ∃ t1 t2, toggle_like t pid u ts1 = Except.ok (t1, true) ∧
      toggle_like t1 pid u ts2 = Except.ok (t2, false) ∧
      likeCount t1 fk = some (c0 + 1) ∧
      likeCount t2 fk = some c0 := by
  obtain ⟨m, hm, hmp, hms⟩ := feed_key_some_unpack t pid fk hmap
  obtain ⟨fi, hfi, hfa⟩ := likeCount_some_unpack t fk c0 hcount
  have hkne : mapKey pid ≠ like_key pid u := by
    intro h
    exact map_feed_ne_like u (congrArg Prod.snd h)
  have htaMap : getItem (putItem t (like_key pid u) (likeRecord pid u ts1))
      (mapKey pid) = some m := by
    rw [getItem_putItem, if_neg hkne]
    exact hm
  have hmapA : _get_feed_key_from_post
      (putItem t (like_key pid u) (likeRecord pid u ts1)) pid =
      Except.ok (some fk) :=
    feed_key_resolves _ pid fk m htaMap hmp hms
  have htaFk : getItem (putItem t (like_key pid u) (likeRecord pid u ts1)) fk =
      some fi := by
    rw [getItem_putItem, if_neg hne]
    exact hfi
  obtain ⟨h1c, h1o, h1g⟩ :=
    addToCounter_spec (putItem t (like_key pid u) (likeRecord pid u ts1)) fk 1
      fi c0 htaFk hfa
  refine ⟨addToCounter (putItem t (like_key pid u) (likeRecord pid u ts1)) fk
      "like_count" 1,
    addToCounter (deleteItem (addToCounter
        (putItem t (like_key pid u) (likeRecord pid u ts1)) fk "like_count" 1)
      (like_key pid u)) fk "like_count" (-1), ?_, ?_, h1c, ?_⟩
  · simp [toggle_like, putIfAbsent, hnolike, hmapA]
  · have hlike1 : getItem (addToCounter
        (putItem t (like_key pid u) (likeRecord pid u ts1)) fk "like_count" 1)
        (like_key pid u) = some (likeRecord pid u ts1) := by
      rw [h1o _ (fun hh => hne hh.symm), getItem_putItem, if_pos rfl]
    have hmap1 : _get_feed_key_from_post (addToCounter
        (putItem t (like_key pid u) (likeRecord pid u ts1)) fk "like_count" 1)
        pid = Except.ok (some fk) := by
      by_cases hmf : mapKey pid = fk
      · have hfim : fi = m := by
          rw [← hmf] at hfi
          exact Option.some.inj (hfi.symm.trans hm)
        refine feed_key_resolves _ pid fk
          (setAttr fi "like_count" (AttrVal.n (c0 + 1))) ?_ ?_ ?_
        · rw [hmf]
          exact h1g
        · rw [getAttr_setAttr_ne _ _ _ _ (by decide), hfim]
          exact hmp
        · rw [getAttr_setAttr_ne _ _ _ _ (by decide), hfim]
          exact hms
      · refine feed_key_resolves _ pid fk m ?_ hmp hms
        rw [h1o _ hmf]
        exact htaMap
    have hmap2 : _get_feed_key_from_post (deleteItem (addToCounter
        (putItem t (like_key pid u) (likeRecord pid u ts1)) fk "like_count" 1)
        (like_key pid u)) pid = Except.ok (some fk) := by
      rw [feed_key_congr _ _ pid (getItem_deleteItem _ _ _ hkne)]
      exact hmap1
    simp [toggle_like, putIfAbsent, hlike1, hmap2]
  · have hgetDel : getItem (deleteItem (addToCounter
        (putItem t (like_key pid u) (likeRecord pid u ts1)) fk "like_count" 1)
        (like_key pid u)) fk =
        some (setAttr fi "like_count" (AttrVal.n (c0 + 1))) := by
      rw [getItem_deleteItem _ _ _ hne]
      exact h1g
    obtain ⟨h2c, h2o, h2g⟩ := addToCounter_spec _ fk (-1)
      (setAttr fi "like_count" (AttrVal.n (c0 + 1))) (c0 + 1) hgetDel
      (getAttr_setAttr_same _ _ _)
    have harith : c0 + 1 + -1 = c0 := by omega
    rw [harith] at h2c
    exact h2c

theorem toggle_like_twice_roundtrip_witness :
    (getItem [(mapKey "p",
        [("feed_pk", AttrVal.s "APP#FEED"), ("feed_sk", AttrVal.s "POST#T#p")]),
      ((("APP#FEED" : String), ("POST#T#p" : String)),
        [("like_count", AttrVal.n 0), ("text", AttrVal.s "hello")])]
      (like_key "p" "u") = none) ∧
    (∃ t1 t2,
      toggle_like [(mapKey "p",
          [("feed_pk", AttrVal.s "APP#FEED"), ("feed_sk", AttrVal.s "POST#T#p")]),
        ((("APP#FEED" : String), ("POST#T#p" : String)),
          [("like_count", AttrVal.n 0), ("text", AttrVal.s "hello")])]
        "p" "u" "TS1" = Except.ok (t1, true) ∧
      toggle_like t1 "p" "u" "TS2" = Except.ok (t2, false) ∧
      likeCount t1 (("APP#FEED" : String), ("POST#T#p" : String)) =
        some (0 + 1) ∧
      likeCount t2 (("APP#FEED" : String), ("POST#T#p" : String)) = some 0) :=
  ⟨rfl, toggle_like_twice_roundtrip _ "p" "u" "TS1" "TS2"
    ("APP#FEED", "POST#T#p") 0 rfl rfl (by decide) rfl⟩

/-! C1: persist-before-broadcast in the DM entry point. -/

theorem sortBy_append_strict_max {α : Type} (le : α → α → Bool) (l : List α)
    (x : α) (h : ∀ e ∈ l, le e x = false) :
    ∃ tl, sortBy le (l ++ [x]) = x :: tl := by
  induction l with
  | nil => exact ⟨[], rfl⟩
  | cons a l2 ih =>
    obtain ⟨tl, htl⟩ := ih (fun e he => h e (List.mem_cons_of_mem a he))
    have ha : le a x = false := h a (List.mem_cons_self a l2)
    refine ⟨insertBy le a tl, ?_⟩
    simp [List.cons_append, sortBy, htl, insertBy, ha]

theorem filter_putItem_of_pred_false (t : Table) (k : DKey) (v : Item)
    (p : DKey × Item → Bool) (hp : ∀ w, p (k, w) = false) :
    (putItem t k v).filter p = t.filter p := by
  induction t with
  | nil => simp [putItem, hp]
  | cons e rest ih =>
    by_cases he : e.1 = k
    · have hke : (k, e.2) = e := by
        rw [← he]
      have hpe : p e = false := hke ▸ hp e.2
      simp [putItem, he, List.filter_cons, hpe, hp]
    · simp [putItem, he, List.filter_cons, ih]

theorem startsWithL_append (p r : List Char) : startsWithL p (p ++ r) = true := by
  induction p with
  | nil => rfl
  | cons c cs ih => simp [startsWithL, ih]

theorem strStartsWith_msg (ts mid : String) :
    strStartsWith ("MSG#" ++ ts ++ "#" ++ mid) "MSG#" = true := by
  unfold strStartsWith
  have hd : ("MSG#" ++ ts ++ "#" ++ mid).data =
      "MSG#".data ++ (ts.data ++ ("#".data ++ mid.data)) := by
    simp [String.data_append]
  rw [hd]
  exact startsWithL_append _ _

theorem list_dm_head_after_send (t : Table) (me to_sub text ts mid : String)
    (limit : Nat)
    (hmax : ∀ e ∈ t, e.1.1 = "DM#" ++ _convo_id me to_sub →
      pyStrLt e.1.2 ("MSG#" ++ ts ++ "#" ++ mid) = true)
    (hlim : 1 ≤ limit) :
    (list_dm (send_dm t me to_sub text ts mid).1 me to_sub limit).head? =
      some (dmMsgRecord me to_sub text ts mid) := by
  have habs : getItem t ("DM#" ++ _convo_id me to_sub,
      "MSG#" ++ ts ++ "#" ++ mid) = none := by
    apply getItem_eq_none_of_forall_ne
    intro e he hk
    have h1 := hmax e he (by rw [hk])
    rw [hk] at h1
    simp [pyStrLt, charListLt_irrefl] at h1
  have hpS : ∀ w : Item, (fun e : DKey × Item =>
      decide (e.1.1 = "DM#" ++ _convo_id me to_sub) && strStartsWith e.1.2 "MSG#")
      (("USER#" ++ me, "DM#" ++ _convo_id me to_sub), w) = false := by
    intro w
    have hne2 : ¬ (("USER#" ++ me : String) = "DM#" ++ _convo_id me to_sub) :=
      fun hh => dm_pk_ne_user_pk _ _ hh.symm
    simp [hne2]
  have hpR : ∀ w : Item, (fun e : DKey × Item =>
      decide (e.1.1 = "DM#" ++ _convo_id me to_sub) && strStartsWith e.1.2 "MSG#")
      (("USER#" ++ to_sub, "DM#" ++ _convo_id me to_sub), w) = false := by
    intro w
    have hne2 : ¬ (("USER#" ++ to_sub : String) = "DM#" ++ _convo_id me to_sub) :=
      fun hh => dm_pk_ne_user_pk _ _ hh.symm
    simp [hne2]
  have hfil : ((send_dm t me to_sub text ts mid).1).filter
      (fun e : DKey × Item => decide (e.1.1 = "DM#" ++ _convo_id me to_sub) &&
        strStartsWith e.1.2 "MSG#") =
      t.filter (fun e : DKey × Item => decide (e.1.1 = "DM#" ++ _convo_id me to_sub) &&
        strStartsWith e.1.2 "MSG#") ++
      [(("DM#" ++ _convo_id me to_sub, "MSG#" ++ ts ++ "#" ++ mid),
        dmMsgRecord me to_sub text ts mid)] := by
    simp only [send_dm]
    rw [filter_putItem_of_pred_false _ _ _ _ hpR,
      filter_putItem_of_pred_false _ _ _ _ hpS,
      putItem_of_absent _ _ _ habs, List.filter_append]
    congr 1
    simp [List.filter_cons, strStartsWith_msg]
  have hmem : ∀ e ∈ t.filter (fun e : DKey × Item =>
      decide (e.1.1 = "DM#" ++ _convo_id me to_sub) &&
        strStartsWith e.1.2 "MSG#"),
      skDescLE e (("DM#" ++ _convo_id me to_sub, "MSG#" ++ ts ++ "#" ++ mid),
        dmMsgRecord me to_sub text ts mid) = false := by
    intro e he
    have h1 := List.mem_of_mem_filter he
    have h2 := List.of_mem_filter he
    simp only [Bool.and_eq_true, decide_eq_true_eq] at h2
    have h3 := hmax e h1 h2.1
    simp [skDescLE, pyStrLe, h3]
  obtain ⟨tl, htl⟩ := sortBy_append_strict_max skDescLE _ _ hmem
  simp only [list_dm, queryDesc, queryDescAll]
  rw [hfil, htl]
  cases limit with
  | zero => omega
  | succ nl => simp

/-- C1: `api_dm` persists the message via `send_dm` strictly before invoking
`broadcast` on the hub — the stored table is exactly the `send_dm` result,
and the broadcast payload is built from the already-persisted message — and
when zero connections are attached to the conversation's room nothing is
delivered, yet the message is stored and returned as the newest entry of
`list_dm`. -/
theorem api_dm_persists_before_broadcast (t : Table) (m : DMManager)
    (me to_sub text ts mid : String) (sendOk : Conn → Bool) (limit : Nat)
    (hmax : ∀ e ∈ t, e.1.1 = "DM#" ++ _convo_id me to_sub →
      pyStrLt e.1.2 ("MSG#" ++ ts ++ "#" ++ mid) = true)
    (hlim : 1 ≤ limit)
    (hroom : lookupRoom m.rooms (convo_id me to_sub) = none ∨
      lookupRoom m.rooms (convo_id me to_sub) = some []) :
    (api_dm t m me to_sub text ts mid sendOk).table =
      (send_dm t me to_sub text ts mid).1 ∧
    (api_dm t m me to_sub text ts mid sendOk).hub =
      (DMManager.broadcast m me to_sub
        (WsPayload.mk "dm" (send_dm t me to_sub text ts mid).2) sendOk).1 ∧
    (api_dm t m me to_sub text ts mid sendOk).sent = [] ∧
    (list_dm (api_dm t m me to_sub text ts mid sendOk).table me to_sub
        limit).head? = some (dmMsgRecord me to_sub text ts mid) := by
  refine ⟨rfl, rfl, ?_, ?_⟩
  · rcases hroom with h | h <;>
      simp [api_dm, DMManager.broadcast, broadcastLoop, h]
  · exact list_dm_head_after_send t me to_sub text ts mid limit hmax hlim

theorem api_dm_persists_before_broadcast_witness :
    (∀ e ∈ ([] : Table), e.1.1 = "DM#" ++ _convo_id "alice" "bob" →
      pyStrLt e.1.2 ("MSG#" ++ "T1" ++ "#" ++ "m1") = true) ∧
    1 ≤ 50 ∧
    (lookupRoom (DMManager.mk []).rooms (convo_id "alice" "bob") = none ∨
      lookupRoom (DMManager.mk []).rooms (convo_id "alice" "bob") = some []) ∧
    ((api_dm [] (DMManager.mk []) "alice" "bob" "hi" "T1" "m1"
        (fun _ => true)).table = (send_dm [] "alice" "bob" "hi" "T1" "m1").1 ∧
     (api_dm [] (DMManager.mk []) "alice" "bob" "hi" "T1" "m1"
        (fun _ => true)).hub =
      (DMManager.broadcast (DMManager.mk []) "alice" "bob"
        (WsPayload.mk "dm" (send_dm [] "alice" "bob" "hi" "T1" "m1").2)
        (fun _ => true)).1 ∧
     (api_dm [] (DMManager.mk []) "alice" "bob" "hi" "T1" "m1"
        (fun _ => true)).sent = [] ∧
     (list_dm (api_dm [] (DMManager.mk []) "alice" "bob" "hi" "T1" "m1"
        (fun _ => true)).table "alice" "bob" 50).head? =
      some (dmMsgRecord "alice" "bob" "hi" "T1" "m1")) :=
  ⟨fun e he => absurd he (List.not_mem_nil e), by omega, Or.inl rfl,
    api_dm_persists_before_broadcast [] (DMManager.mk []) "alice" "bob" "hi"
      "T1" "m1" (fun _ => true) 50
      (fun e he => absurd he (List.not_mem_nil e)) (by omega) (Or.inl rfl)⟩

end FinDocs
